import Mathlib

/-!
# Shallow embedding of the heuristic core of `lambda/sap-claude-handler/lambda_function.py`

Strings are modelled as `List Char` (`Str`); Python `in` on strings is the
infix relation `<:+:` on `List Char`.  Python floats are modelled as exact
rationals `ℚ`; the aggregation claims only concern how values flow through
the code, not binary rounding.  Cell values (`Any` in the source) are
modelled by the constructors the handler actually receives from its JSON
boundary: strings, integers and null.  `str.lower` is modelled on the ASCII
range (the Japanese keywords in the source are unaffected by lowering).
-/

namespace SAP

abbrev Str := List Char

/-- Python `str.lower()` (ASCII range; non-ASCII characters unchanged). -/
def pyLower (s : Str) : Str := s.map Char.toLower

/-- Whitespace stripped by Python `str.strip()` (ASCII whitespace). -/
def isPySpace (c : Char) : Bool :=
  c = ' ' || c = '\t' || c = '\n' || c = '\r' || c = '\x0b' || c = '\x0c'

/-- Python `str.strip()`. -/
def pyStrip (s : Str) : Str :=
  ((s.dropWhile isPySpace).reverse.dropWhile isPySpace).reverse

/-- A cell value of a row (`Any` at the JSON boundary of the handler). -/
inductive Value where
  | vstr (s : Str)
  | vint (n : ℤ)
  | vnone
deriving DecidableEq

/-- Python `str(x)` on the modelled cell values. -/
def pyStr : Value → Str
  | .vstr s => s
  | .vint n => if n < 0 then '-' :: Nat.toDigits 10 n.natAbs else Nat.toDigits 10 n.natAbs
  | .vnone => "None".data

/-- Decimal value of a digit string. -/
def digitsToNat (s : Str) : ℕ :=
  s.foldl (fun a c => 10 * a + (c.toNat - '0'.toNat)) 0

/-- Exponent part of a float literal, after the `e`/`E` (sign then digits). -/
def parseExpPart : Str → Option ℤ
  | '+' :: t => if t ≠ [] ∧ t.all Char.isDigit then some (digitsToNat t) else none
  | '-' :: t => if t ≠ [] ∧ t.all Char.isDigit then some (-(digitsToNat t : ℤ)) else none
  | t => if t ≠ [] ∧ t.all Char.isDigit then some (digitsToNat t) else none

/-- Syntactic analysis of a Python float literal
`[sign] digits [. digits] [(e|E) [sign] digits]` into
(negative?, integer digits, fraction digits, exponent).
`inf`/`nan` and digit-group underscores are outside the modelled fragment. -/
def parseParts (s : Str) : Option (Bool × Str × Str × ℤ) :=
  let p : Bool × Str := match s with
    | '+' :: t => (false, t)
    | '-' :: t => (true, t)
    | _ => (false, s)
  let ip := p.2.takeWhile Char.isDigit
  let r1 := p.2.dropWhile Char.isDigit
  let q : Str × Str := match r1 with
    | '.' :: t => (t.takeWhile Char.isDigit, t.dropWhile Char.isDigit)
    | _ => ([], r1)
  if ip = [] ∧ q.1 = [] then none
  else match q.2 with
    | [] => some (p.1, ip, q.1, 0)
    | 'e' :: t => (parseExpPart t).map (fun e => (p.1, ip, q.1, e))
    | 'E' :: t => (parseExpPart t).map (fun e => (p.1, ip, q.1, e))
    | _ => none

/-- Rational value denoted by the parsed parts of a float literal. -/
def ratOfParts (p : Bool × Str × Str × ℤ) : ℚ :=
  (if p.1 then -1 else 1) *
    ((digitsToNat p.2.1 : ℚ) + (digitsToNat p.2.2.1 : ℚ) / 10 ^ p.2.2.1.length) *
    (10 : ℚ) ^ p.2.2.2

/-- Python `float(s)` on the modelled literal fragment. -/
def parseFloat (s : Str) : Option ℚ := (parseParts s).map ratOfParts

/-- The cleaning pipeline of `_to_number`:
`str(x).replace(",", "").replace("¥", "").replace("円", "").strip()`. -/
def cleanNumStr (v : Value) : Str :=
  pyStrip ((((pyStr v).filter (fun c => c ≠ ',')).filter (fun c => c ≠ '¥')).filter
    (fun c => c ≠ '円'))

/-- The normalizer `_to_number`: parse after cleaning, and on any parse failure
return `0.0` (the `except` branch of the source). -/
def to_number (v : Value) : ℚ :=
  match parseFloat (cleanNumStr v) with
  | some q => q
  | none => 0

/-- A row: ordered mapping from column name to cell value (`Dict[str, Any]`). -/
abbrev Row := List (Str × Value)

/-- Python `r.get(k, default)`. -/
def rowGet (r : Row) (k : Str) (dflt : Value) : Value :=
  match r.find? (fun kv => kv.1 == k) with
  | some kv => kv.2
  | none => dflt

/-- Keys of the first row (`rows[0].keys()`), or `[]` for an empty dataset. -/
def firstRowKeys (rows : List Row) : List Str :=
  match rows with
  | [] => []
  | r :: _ => r.map Prod.fst

/-- Date-indicator test of `_detect_columns`: `("日" in name) or ("date" in lc)`. -/
def dateMatch (name : Str) : Bool :=
  decide ("日".data <:+: name) || decide ("date".data <:+: pyLower name)

/-- Amount-indicator test of `_detect_columns` (the broad 金額/sales keyword list). -/
def salesMatch (name : Str) : Bool :=
  let lc := pyLower name
  decide ("売".data <:+: name) || decide ("金額".data <:+: name) ||
  decide ("amount".data <:+: lc) || decide ("sales".data <:+: lc) ||
  decide ("total".data <:+: lc) || decide ("給与".data <:+: name) ||
  decide ("salary".data <:+: lc) || decide ("在庫金額".data <:+: name) ||
  decide ("roi".data <:+: lc) || decide ("予算".data <:+: name)

/-- Entity-name-indicator test of `_detect_columns` (the broad 商品/name keyword list). -/
def productMatch (name : Str) : Bool :=
  let lc := pyLower name
  decide ("商".data <:+: name) || decide ("品".data <:+: name) ||
  decide ("product".data <:+: lc) || decide ("item".data <:+: lc) ||
  decide ("name".data <:+: lc) || decide ("氏名".data <:+: name) ||
  decide ("社員".data <:+: name) || decide ("employee".data <:+: lc) ||
  decide ("キャンペーン".data <:+: name) || decide ("商品コード".data <:+: name)

/-- The role map built by `_detect_columns` (`colmap`). -/
structure ColMap where
  date : Option Str
  sales : Option Str
  product : Option Str
deriving DecidableEq

/-- Python dict `setdefault`: keep the current binding, otherwise bind when the test fired. -/
def setDef (cur : Option Str) (cond : Bool) (name : Str) : Option Str :=
  if cond then some (cur.getD name) else cur

/-- One column step of `_detect_columns`: each of the three roles tries
`setdefault` on the same column name. -/
def detectStep (cm : ColMap) (name : Str) : ColMap :=
  ⟨setDef cm.date (dateMatch name) name,
   setDef cm.sales (salesMatch name) name,
   setDef cm.product (productMatch name) name⟩

/-- The `_detect_columns` scan: fold the per-column step over the first row's keys. -/
def detect_columns (rows : List Row) : ColMap :=
  (firstRowKeys rows).foldl detectStep ⟨none, none, none⟩

/-! ## `_identify_data_type`: the Data-Type Classifier -/

/-- Conversion helper for literal keyword tables. -/
def strs (l : List String) : List Str := l.map String.data

/-- The six categories of the `scores` table, in its insertion order. -/
inductive Category where
  | hr | marketing | sales | financial | inventory | customer
deriving DecidableEq

/-- Insertion order of the `scores` dict of `_identify_data_type`. -/
def catsOrder : List Category :=
  [.hr, .marketing, .sales, .financial, .inventory, .customer]

/-- The label string returned for each category. -/
def catName : Category → Str
  | .hr => "hr_data".data
  | .marketing => "marketing_data".data
  | .sales => "sales_data".data
  | .financial => "financial_data".data
  | .inventory => "inventory_data".data
  | .customer => "customer_data".data

/-- Python `" ".join` on the modelled strings. -/
def joinSp : List Str → Str
  | [] => []
  | [c] => c
  | c :: c2 :: t => c ++ ' ' :: joinSp (c2 :: t)

/-- The classifier's `col_str = " ".join(col_lower) + " " + " ".join(columns)`. -/
def colStr (columns : List Str) : Str :=
  joinSp (columns.map pyLower) ++ ' ' :: joinSp columns

def hrStrong : List Str := strs
  ["社員id", "employee", "氏名", "部署", "給与", "salary", "賞与", "年収", "評価",
   "performance", "残業", "overtime", "有給", "離職", "昇進", "スキル", "チーム貢献", "人事"]

def hrMedium : List Str := strs
  ["勤怠", "attendance", "研修", "training", "目標達成", "職位", "入社", "年齢"]

def mkStrong : List Str := strs
  ["キャンペーン", "campaign", "roi", "インプレッション", "impression", "クリック", "click",
   "cv数", "conversion", "顧客獲得", "cac", "roas", "広告", "媒体", "ターゲット"]

def mkMedium : List Str := strs
  ["予算", "budget", "支出", "cost", "facebook", "google", "youtube", "instagram",
   "tiktok", "twitter"]

def salesStrong : List Str := strs
  ["売上", "sales", "revenue", "商品", "product", "顧客", "customer", "金額", "amount",
   "単価", "price", "数量", "quantity"]

def salesMedium : List Str := strs
  ["日付", "date", "店舗", "store", "地域", "region", "カテゴリ", "category"]

def finStrong : List Str := strs
  ["売上高", "revenue", "利益", "profit", "資産", "asset", "負債", "liability",
   "キャッシュ", "cash", "損益", "pl", "貸借", "bs"]

def invStrong : List Str := strs
  ["在庫", "inventory", "stock", "在庫数", "保有数", "倉庫", "warehouse", "回転率",
   "turnover", "滞留", "入庫", "出庫", "調達", "procurement"]

def invMedium : List Str := strs
  ["商品コード", "sku", "ロット", "lot", "品番", "型番", "仕入", "supplier", "発注",
   "order", "納期", "delivery"]

def custStrong : List Str := strs
  ["顧客", "customer", "会員", "member", "ユーザー", "user", "ltv", "lifetime", "churn",
   "離脱", "継続", "retention", "満足度", "satisfaction"]

def custMedium : List Str := strs
  ["セグメント", "segment", "年齢", "age", "性別", "gender", "地域", "region", "購入履歴",
   "purchase", "アクセス", "access", "クリック", "click"]

/-- Weighted keyword sweep: `for keyword in kws: if keyword in col_str: score += w`. -/
def kwScore (kws : List Str) (w : ℕ) (cs : Str) : ℕ :=
  (kws.map (fun kw => if kw <:+: cs then w else 0)).sum

/-- The column-name tier of the classifier score of one category
(the strong/medium keyword loops of `_identify_data_type`). -/
def colScore : Category → Str → ℕ
  | .hr, cs => kwScore hrStrong 3 cs + kwScore hrMedium 2 cs
  | .marketing, cs => kwScore mkStrong 3 cs + kwScore mkMedium 1 cs
  | .sales, cs => kwScore salesStrong 3 cs + kwScore salesMedium 1 cs
  | .financial, cs => kwScore finStrong 3 cs
  | .inventory, cs => kwScore invStrong 3 cs + kwScore invMedium 1 cs
  | .customer, cs => kwScore custStrong 3 cs + kwScore custMedium 1 cs

/-- Python `needle in haystack`, as a Bool. -/
def hasSub (needle hay : Str) : Bool := decide (needle <:+: hay)

/-- Python `any(pat in s for pat in pats)`. -/
def anyIn (pats : List Str) (s : Str) : Bool := pats.any (fun p => hasSub p s)

/-- Python `str.isdigit()` (ASCII digits) on the modelled strings. -/
def isDigitsB (s : Str) : Bool := !s.isEmpty && s.all Char.isDigit

/-- Contribution of one `(key, value)` item of the first sample row to one
category's score (the value-pattern loop of `_identify_data_type`). -/
def itemScore (c : Category) (key : Str) (v : Value) : ℕ :=
  let sv := pyLower (pyStr v)
  let kl := pyLower key
  match c with
  | .hr =>
      (if anyIn (strs ["営業部", "it部", "人事部", "財務部", "マーケティング部"]) sv then 5 else 0) +
      (if anyIn (strs ["主任", "係長", "一般", "部長", "課長"]) sv then 3 else 0) +
      (if anyIn (strs ["低", "中", "高"]) sv &&
          (hasSub "リスク".data key || hasSub "risk".data kl) then 4 else 0)
  | .marketing =>
      (if anyIn (strs ["google広告", "facebook広告", "youtube広告", "instagram広告",
          "line広告", "tiktok広告"]) sv then 5 else 0) +
      (if hasSub "%".data sv && anyIn (strs ["roi", "達成率", "満足度"]) kl then 2 else 0)
  | .sales =>
      (if hasSub "商品".data key || hasSub "product".data kl then 3 else 0) +
      (if (kl = "店舗".data || kl = "store".data) && !sv.isEmpty then 4 else 0)
  | .financial => 0
  | .inventory =>
      (if anyIn (strs ["個", "本", "kg", "箱", "セット", "台"]) sv then 2 else 0) +
      (if hasSub "warehouse".data kl || hasSub "倉庫".data key then 3 else 0) +
      (if anyIn (strs ["入荷待ち", "出荷済み", "在庫切れ", "調達中"]) sv then 4 else 0)
  | .customer =>
      (if anyIn (strs ["20代", "30代", "40代", "50代", "60代"]) sv ||
          (isDigitsB sv && decide (18 ≤ digitsToNat sv) && decide (digitsToNat sv ≤ 80))
        then 3 else 0) +
      (if anyIn (strs ["男性", "女性", "male", "female", "男", "女"]) sv then 3 else 0) +
      (if hasSub "@".data sv then 4 else 0)

/-- The value-pattern tier: iterate the items of the first sample row
(`sample = sample_data[0]`), or contribute nothing when the sample is empty. -/
def valueScore (c : Category) (sampleHead : Option Row) : ℕ :=
  match sampleHead with
  | none => 0
  | some r => (r.map (fun kv => itemScore c kv.1 kv.2)).sum

/-- Total score of one category for a `(columns, sample_data)` input. -/
def totalScore (c : Category) (columns : List Str) (sampleData : List Row) : ℕ :=
  colScore c (colStr columns) + valueScore c sampleData.head?

/-- Python `max(scores.values())` (all scores are naturals, so seeding with 0 is exact). -/
def maxScoreVal (sc : Category → ℕ) : ℕ := (catsOrder.map sc).foldl Nat.max 0

/-- Python `max(scores, key=scores.get)`: keep the current key unless a later key
scores strictly higher. -/
def pickMax (sc : Category → ℕ) : List Category → Category → Category
  | [], best => best
  | c :: t, best => pickMax sc t (if sc best < sc c then c else best)

/-- The classifier `_identify_data_type`. -/
def identify_data_type (columns : List Str) (sampleData : List Row) : Str :=
  if columns.isEmpty then "financial_data".data
  else
    let sc := fun c => totalScore c columns sampleData
    if 0 < maxScoreVal sc then
      catName (pickMax sc [.marketing, .sales, .financial, .inventory, .customer] .hr)
    else "financial_data".data

/-! ## `validate_analysis_compatibility`: the Compatibility Validator -/

/-- One entry of the `compatibility_matrix` (the unused `description` field is elided). -/
structure BtnConfig where
  primary : List Str
  secondary : List Str
  bname : Str
deriving DecidableEq

/-- The static `compatibility_matrix`, in its insertion order. -/
def compatibilityMatrix : List (Str × BtnConfig) :=
  [("sales".data, ⟨strs ["sales_data"], strs ["financial_data"], "売上分析".data⟩),
   ("hr".data, ⟨strs ["hr_data"], [], "人事分析".data⟩),
   ("marketing".data, ⟨strs ["marketing_data"], strs ["financial_data"], "マーケティング分析".data⟩),
   ("strategic".data, ⟨strs ["financial_data", "sales_data"],
      strs ["hr_data", "marketing_data"], "統合戦略分析".data⟩)]

/-- Dict lookup `compatibility_matrix[requested_analysis_type]`. -/
def matrixLookup (k : Str) : Option BtnConfig :=
  (compatibilityMatrix.find? (fun kv => kv.1 == k)).map Prod.snd

/-- The `best_match` scan: first matrix entry whose `primary + secondary`
contains the detected type, yielding its display name. -/
def bestMatch (detected : Str) : Option Str :=
  (compatibilityMatrix.find?
    (fun kv => decide (detected ∈ kv.2.primary ++ kv.2.secondary))).map
    (fun kv => kv.2.bname)

/-- The validator `validate_analysis_compatibility`.  The source composes an advisory
`error_msg` (via `best_match` and `_get_data_type_name`) in the mismatch
branch, but every return site yields `(True, "")`; the dead message text is
not modelled, the branch structure and return values are. -/
def validate_analysis_compatibility (detected requested : Str) : Bool × Str :=
  match matrixLookup requested with
  | none => (true, [])
  | some config =>
    if detected ∈ config.primary ++ config.secondary then (true, [])
    else
      match bestMatch detected with
      | some _ => (true, [])
      | none => (true, [])

/-! ## `_compute_stats`: the Statistics Aggregator -/

/-- Accumulate `v` onto key `k`, inserting at the end on first sight
(`defaultdict(float)` / `Counter` update semantics, insertion-ordered). -/
def upsert (l : List (Str × ℚ)) (k : Str) (v : ℚ) : List (Str × ℚ) :=
  match l with
  | [] => [(k, v)]
  | kv :: t => if kv.1 = k then (kv.1, kv.2 + v) :: t else kv :: upsert t k v

/-- Amount contributed by one row:
`_to_number(r.get(scol, 0)) if scol else 0.0`. -/
def amountOf (cm : ColMap) (r : Row) : ℚ :=
  match cm.sales with
  | some sc => to_number (rowGet r sc (.vint 0))
  | none => 0

/-- Entity key of one row: `str(r.get(pcol, "")).strip()`. -/
def entKeyOf (pc : Str) (r : Row) : Str := pyStrip (pyStr (rowGet r pc (.vstr [])))

/-- Day bucket of one row:
`dt = str(r.get(dcol, "")).strip().replace("/", "-"); day = dt[:10] if len(dt) >= 10 else dt`. -/
def dayOf (dc : Str) (r : Row) : Str :=
  let dt := (pyStrip (pyStr (rowGet r dc (.vstr [])))).map (fun c => if c = '/' then '-' else c)
  if dt.length ≥ 10 then dt.take 10 else dt

/-- Loop state of the row pass of `_compute_stats`. -/
structure SAcc where
  total : ℚ
  byp : List (Str × ℚ)
  ts : List (Str × ℚ)

/-- One row of the `_compute_stats` loop.  A role column detected by
`_detect_columns` always contains a keyword and is hence a nonempty, truthy
string, so Python's `if scol:` / `if pcol:` / `if dcol:` tests are modelled
by the `Option` match. -/
def stepRow (cm : ColMap) (a : SAcc) (r : Row) : SAcc :=
  let v := amountOf cm r
  { total := a.total + v
    byp := match cm.product with
           | some pc => upsert a.byp (entKeyOf pc r) v
           | none => a.byp
    ts := match cm.date with
          | some dc => let day := dayOf dc r
                       if day = [] then a.ts else upsert a.ts day v
          | none => a.ts }

/-- Stable descending order used to model `Counter.most_common(5)`
(`heapq.nlargest` = descending by count, stable, i.e. ties in first-seen
position order); entries carry their insertion index. -/
def mcRel (a b : ℕ × (Str × ℚ)) : Prop :=
  b.2.2 < a.2.2 ∨ (a.2.2 = b.2.2 ∧ a.1 ≤ b.1)

instance : DecidableRel mcRel := fun a b =>
  inferInstanceAs (Decidable (b.2.2 < a.2.2 ∨ (a.2.2 = b.2.2 ∧ a.1 ≤ b.1)))

instance : IsTotal (ℕ × (Str × ℚ)) mcRel where
  total a b := by
    rcases lt_trichotomy a.2.2 b.2.2 with h | h | h
    · exact Or.inr (Or.inl h)
    · rcases Nat.le_total a.1 b.1 with h1 | h1
      · exact Or.inl (Or.inr ⟨h, h1⟩)
      · exact Or.inr (Or.inr ⟨h.symm, h1⟩)
    · exact Or.inl (Or.inl h)

instance : IsTrans (ℕ × (Str × ℚ)) mcRel where
  trans a b c hab hbc := by
    rcases hab with h1 | ⟨h1, h1i⟩ <;> rcases hbc with h2 | ⟨h2, h2i⟩
    · exact Or.inl (lt_trans h2 h1)
    · exact Or.inl (h2 ▸ h1)
    · exact Or.inl (lt_of_lt_of_le h2 (le_of_eq h1.symm))
    · exact Or.inr ⟨h1.trans h2, le_trans h1i h2i⟩

/-- Python `Counter.most_common(5)`: the first five entries of the stable
descending-by-value ordering of the insertion-ordered tally list. -/
def mostCommonTop (l : List (Str × ℚ)) : List (Str × ℚ) :=
  ((l.enum.insertionSort mcRel).take 5).map Prod.snd

/-- Key order used to model `sorted(ts.items())` (day keys are distinct, so
the tuple comparison reduces to the lexicographic order on the day string). -/
def tsRel (a b : Str × ℚ) : Prop := a.1 ≤ b.1

instance : DecidableRel tsRel := fun a b =>
  inferInstanceAs (Decidable (a.1 ≤ b.1))

instance : IsTotal (Str × ℚ) tsRel where
  total a b := le_total a.1 b.1

instance : IsTrans (Str × ℚ) tsRel where
  trans _ _ _ hab hbc := le_trans hab hbc

/-- Python `sorted(ts.items())`. -/
def sortTrend (l : List (Str × ℚ)) : List (Str × ℚ) := l.insertionSort tsRel

/-- The result record of `_compute_stats`. -/
structure Stats where
  total_rows : ℕ
  total_sales : ℚ
  avg_row_sales : ℚ
  top_products : List (Str × ℚ)
  timeseries : List (Str × ℚ)
deriving DecidableEq

/-- The aggregator `_compute_stats`. -/
def compute_stats (rows : List Row) : Stats :=
  if rows.length = 0 then ⟨0, 0, 0, [], []⟩
  else
    let cm := detect_columns rows
    let a := rows.foldl (stepRow cm) ⟨0, [], []⟩
    { total_rows := rows.length
      total_sales := a.total
      avg_row_sales := if rows.length = 0 then 0 else a.total / (rows.length : ℚ)
      top_products := mostCommonTop a.byp
      timeseries := sortTrend a.ts }

/-! ## Helper lemmas: Compatibility Validator -/

/-- Every branch of `validate_analysis_compatibility` returns `(True, "")`. -/
lemma validate_always (d r : Str) :
    validate_analysis_compatibility d r = (true, []) := by
  unfold validate_analysis_compatibility
  cases matrixLookup r with
  | none => rfl
  | some config =>
    show (if d ∈ config.primary ++ config.secondary then ((true : Bool), ([] : Str))
      else match bestMatch d with
        | some _ => ((true : Bool), ([] : Str))
        | none => ((true : Bool), ([] : Str))) = (true, [])
    by_cases h : d ∈ config.primary ++ config.secondary
    · rw [if_pos h]
    · rw [if_neg h]
      cases bestMatch d <;> rfl

/-! ## Helper lemmas: `_detect_columns` as a first-match scan -/

/-- The `setdefault` accumulation: keep an existing binding, else take the fallback. -/
def keep : Option Str → Option Str → Option Str
  | some v, _ => some v
  | none, o => o

lemma keep_setDef (cur : Option Str) (p : Str → Bool) (k : Str) (t : List Str) :
    keep (setDef cur (p k) k) (t.find? p) = keep cur ((k :: t).find? p) := by
  cases cur with
  | some v => cases hp : p k <;> simp [setDef, keep, List.find?_cons, hp]
  | none => cases hp : p k <;> simp [setDef, keep, List.find?_cons, hp]

lemma detect_fold (ks : List Str) : ∀ cm : ColMap,
    ks.foldl detectStep cm =
      ⟨keep cm.date (ks.find? dateMatch),
       keep cm.sales (ks.find? salesMatch),
       keep cm.product (ks.find? productMatch)⟩ := by
  induction ks with
  | nil =>
    intro cm
    cases cm with
    | mk d s p => cases d <;> cases s <;> cases p <;> rfl
  | cons k t ih =>
    intro cm
    rw [List.foldl_cons, ih]
    cases cm with
    | mk d s p =>
      show (⟨keep (setDef d (dateMatch k) k) (t.find? dateMatch),
             keep (setDef s (salesMatch k) k) (t.find? salesMatch),
             keep (setDef p (productMatch k) k) (t.find? productMatch)⟩ : ColMap) = _
      rw [keep_setDef, keep_setDef, keep_setDef]

lemma detect_columns_eq (rows : List Row) :
    detect_columns rows =
      ⟨(firstRowKeys rows).find? dateMatch,
       (firstRowKeys rows).find? salesMatch,
       (firstRowKeys rows).find? productMatch⟩ := by
  unfold detect_columns
  rw [detect_fold]
  rfl

/-! ## Helper lemmas: the classifier argmax -/

lemma le_foldl_max (l : List ℕ) : ∀ a : ℕ, a ≤ l.foldl Nat.max a := by
  induction l with
  | nil => intro a; exact le_refl a
  | cons x t ih => intro a; exact le_trans (Nat.le_max_left a x) (ih (Nat.max a x))

lemma pickMax_find (sc : Category → ℕ) : ∀ (l : List Category) (b : Category),
    (b :: l).find? (fun c => sc c == (l.map sc).foldl Nat.max (sc b)) =
      some (pickMax sc l b) := by
  intro l
  induction l with
  | nil =>
    intro b
    simp [pickMax, List.find?_cons]
  | cons c t ih =>
    intro b
    by_cases hlt : sc b < sc c
    · -- the running best is replaced by c, and b can no longer attain the maximum
      have hmax : (List.map sc (c :: t)).foldl Nat.max (sc b) =
          (List.map sc t).foldl Nat.max (sc c) := by
        simp [List.foldl_cons, Nat.max_eq_right (le_of_lt hlt)]
      have hpick : pickMax sc (c :: t) b = pickMax sc t c := by
        simp [pickMax, if_pos hlt]
      rw [hpick, hmax]
      have hbF : (sc b == (List.map sc t).foldl Nat.max (sc c)) = false := by
        rw [beq_eq_false_iff_ne]
        exact Nat.ne_of_lt (lt_of_lt_of_le hlt (le_foldl_max _ _))
      simp only [List.find?_cons, hbF]
      exact ih c
    · -- the running best stays b
      have hcb : sc c ≤ sc b := Nat.le_of_not_lt hlt
      have hmax : (List.map sc (c :: t)).foldl Nat.max (sc b) =
          (List.map sc t).foldl Nat.max (sc b) := by
        simp [List.foldl_cons, Nat.max_eq_left hcb]
      have hpick : pickMax sc (c :: t) b = pickMax sc t b := by
        simp [pickMax, if_neg hlt]
      rw [hpick, hmax]
      have hfind := ih b
      by_cases hb : sc b = (List.map sc t).foldl Nat.max (sc b)
      · have hbT : (sc b == (List.map sc t).foldl Nat.max (sc b)) = true := beq_iff_eq.mpr hb
        simp only [List.find?_cons, hbT] at hfind
        simp only [List.find?_cons, hbT]
        exact hfind
      · have hbF : (sc b == (List.map sc t).foldl Nat.max (sc b)) = false := by
          rw [beq_eq_false_iff_ne]
          exact hb
        have hcF : (sc c == (List.map sc t).foldl Nat.max (sc b)) = false := by
          rw [beq_eq_false_iff_ne]
          intro he
          have h2 : (List.map sc t).foldl Nat.max (sc b) ≤ sc b := he ▸ hcb
          exact hb (le_antisymm (le_foldl_max _ _) h2)
        simp only [List.find?_cons, hbF] at hfind
        simp only [List.find?_cons, hbF, hcF]
        exact hfind

lemma maxScoreVal_eq (sc : Category → ℕ) :
    maxScoreVal sc = (List.map sc
      [Category.marketing, .sales, .financial, .inventory, .customer]).foldl Nat.max (sc .hr) := by
  unfold maxScoreVal catsOrder
  simp [List.foldl_cons, Nat.zero_max]

lemma identify_eval (columns : List Str) (sd : List Row) (hne : columns ≠ []) :
    identify_data_type columns sd =
      (if 0 < maxScoreVal (fun c => totalScore c columns sd) then
        catName (pickMax (fun c => totalScore c columns sd)
          [.marketing, .sales, .financial, .inventory, .customer] .hr)
      else "financial_data".data) := by
  unfold identify_data_type
  rw [if_neg]
  intro h
  exact hne (List.isEmpty_iff.mp h)

/-! ## Theorems for the claims on the validator, detector and classifier -/

/-- C2: for every pair of a detected category and a caller-declared intended
analysis category (recognized by the compatibility matrix or not),
`validate_analysis_compatibility` returns a decision with `proceed = true`;
no input produces a rejection. -/
theorem c2_validator_never_rejects (detected requested : Str) :
    (validate_analysis_compatibility detected requested).1 = true := by
  rw [validate_always]

/-- C1 counterexample: the claim asserts that on a full mismatch the returned
decision carries an advisory message naming a better-suited category.  In the
code every return site yields `(True, "")`: for the claim's own scenario
(detected `inventory_data`, intended `hr`) the message is empty and, moreover,
no matrix entry covers `inventory_data`, so no best match even exists; and
even where a best match exists (detected `sales_data`, intended `hr`, best
match 売上分析) the returned message is still empty. -/
theorem c1_counterexample :
    validate_analysis_compatibility "inventory_data".data "hr".data = (true, []) ∧
    bestMatch "inventory_data".data = none ∧
    validate_analysis_compatibility "sales_data".data "hr".data = (true, []) ∧
    bestMatch "sales_data".data = some "売上分析".data := by
  exact ⟨by decide, by decide, by decide, by decide⟩

/-- C1 (amended): for every recognized intended-analysis category whose primary
and secondary sets both exclude the detected category,
`validate_analysis_compatibility` returns `proceed = true` with an **empty**
advisory message (the advisory text naming a better-suited category is built
internally but discarded); in particular (inventory, hr) yields `(true, "")`. -/
theorem c1_mismatch_empty_advisory (detected requested : Str) (config : BtnConfig)
    (hcfg : matrixLookup requested = some config)
    (hnot : detected ∉ config.primary ++ config.secondary) :
    validate_analysis_compatibility detected requested = (true, []) :=
  validate_always detected requested

/-- Witness for the amended C1 at the claim's own scenario. -/
theorem c1_mismatch_empty_advisory_witness :
    matrixLookup "hr".data = some ⟨strs ["hr_data"], [], "人事分析".data⟩ ∧
    "inventory_data".data ∉
      (⟨strs ["hr_data"], [], "人事分析".data⟩ : BtnConfig).primary ++
      (⟨strs ["hr_data"], [], "人事分析".data⟩ : BtnConfig).secondary ∧
    validate_analysis_compatibility "inventory_data".data "hr".data = (true, []) :=
  ⟨by decide, by decide,
    c1_mismatch_empty_advisory "inventory_data".data "hr".data
      ⟨strs ["hr_data"], [], "人事分析".data⟩ (by decide) (by decide)⟩

/-- C7: the Column Role Detector is first-match-wins per role: each of the
roles date, amount (`sales`), entity (`product`) is bound to the first column
of the first row matching that role's keyword test, and is never overridden by
a later matching column; in particular for columns
`["商品名", "売上金額", "日付"]` the entity role binds `"商品名"`, the amount
role `"売上金額"`, and the date role `"日付"`, each exactly once. -/
theorem c7_first_match_wins :
    (∀ rows : List Row,
      (detect_columns rows).date = (firstRowKeys rows).find? dateMatch ∧
      (detect_columns rows).sales = (firstRowKeys rows).find? salesMatch ∧
      (detect_columns rows).product = (firstRowKeys rows).find? productMatch) ∧
    detect_columns
        [[("商品名".data, .vnone), ("売上金額".data, .vnone), ("日付".data, .vnone)]] =
      ⟨some "日付".data, some "売上金額".data, some "商品名".data⟩ := by
  constructor
  · intro rows
    rw [detect_columns_eq]
    exact ⟨rfl, rfl, rfl⟩
  · decide

/-- C9 (amended): for a nonempty column list the classifier returns the
category whose total score is maximal, ties resolved in favor of the category
appearing first in the insertion order of the score table
(`hr, marketing, sales, financial, inventory, customer`), and returns the
default `financial_data` when every score is zero; for an **empty** column
list it returns `financial_data` immediately, regardless of the sample (which
may carry nonzero value-pattern scores — see the counterexample). -/
theorem c9_classifier_argmax (columns : List Str) (sd : List Row) :
    (columns = [] → identify_data_type columns sd = "financial_data".data) ∧
    (columns ≠ [] → maxScoreVal (fun c => totalScore c columns sd) = 0 →
      identify_data_type columns sd = "financial_data".data) ∧
    (columns ≠ [] → 0 < maxScoreVal (fun c => totalScore c columns sd) →
      ∀ w, catsOrder.find? (fun c =>
          totalScore c columns sd == maxScoreVal (fun c => totalScore c columns sd)) =
          some w →
        identify_data_type columns sd = catName w) := by
  refine ⟨?_, ?_, ?_⟩
  · intro h
    subst h
    rfl
  · intro hne h0
    rw [identify_eval _ _ hne, h0]
    rfl
  · intro hne hpos w hw
    rw [identify_eval _ _ hne, if_pos hpos]
    rw [maxScoreVal_eq] at hw
    simp only [catsOrder] at hw
    rw [pickMax_find] at hw
    injection hw with hw
    rw [hw]

/-- Witness for C9 at a concrete input: columns `["氏名"]`, empty sample; the
unique maximal category is `hr` and the classifier returns `"hr_data"`. -/
theorem c9_classifier_argmax_witness :
    (["氏名".data] ≠ ([] : List Str)) ∧
    0 < maxScoreVal (fun c => totalScore c ["氏名".data] []) ∧
    catsOrder.find? (fun c =>
        totalScore c ["氏名".data] [] == maxScoreVal (fun c => totalScore c ["氏名".data] [])) =
      some .hr ∧
    identify_data_type ["氏名".data] [] = "hr_data".data :=
  ⟨by decide, by decide, by decide,
    (c9_classifier_argmax ["氏名".data] []).2.2 (by decide) (by decide) .hr (by decide)⟩

/-- C9 counterexample: with an empty column list but a sample whose first row
carries a value-pattern signal (`"主任"`, an hr seniority title), every
category score is **not** zero — the maximal category is `hr` — yet
`_identify_data_type` returns the default `"financial_data"` without scoring,
contradicting the claim that the maximal category is returned and that the
empty-column case is an all-zero-score case. -/
theorem c9_counterexample :
    identify_data_type [] [[("x".data, .vstr "主任".data)]] = "financial_data".data ∧
    0 < maxScoreVal (fun c => totalScore c [] [[("x".data, .vstr "主任".data)]]) ∧
    catsOrder.find? (fun c =>
        totalScore c [] [[("x".data, .vstr "主任".data)]] ==
          maxScoreVal (fun c => totalScore c [] [[("x".data, .vstr "主任".data)]])) =
      some .hr ∧
    catName .hr ≠ "financial_data".data := by
  exact ⟨by decide, by decide, by decide, by decide⟩

/-- C10 (implicit): the classifier's value-pattern scoring reads only the
first row of the sample it is given — for every column list and any two
non-empty sample lists with equal first rows, `_identify_data_type` returns
the same classification. -/
theorem c10_only_first_sample_row (columns : List Str) (r : Row) (t1 t2 : List Row) :
    identify_data_type columns (r :: t1) = identify_data_type columns (r :: t2) := rfl

/-- C8: the Numeric Normalizer is total by construction and returns 0.0 on any
parse failure; `"1000"` normalizes to 1000.0, `"¥1,000円"` to 1000.0, and
`"abc"` and `""` to 0.0. -/
theorem c8_to_number_total_graceful :
    (∀ v : Value, parseParts (cleanNumStr v) = none → to_number v = 0) ∧
    to_number (.vstr "1000".data) = 1000 ∧
    to_number (.vstr "¥1,000円".data) = 1000 ∧
    to_number (.vstr "abc".data) = 0 ∧
    to_number (.vstr []) = 0 := by
  refine ⟨?_, ?_, ?_, ?_, ?_⟩
  · intro v h
    unfold to_number parseFloat
    rw [h]
    rfl
  · have hp : parseParts (cleanNumStr (Value.vstr "1000".data)) =
        some (false, "1000".data, [], 0) := by decide
    have h1 : digitsToNat "1000".data = 1000 := by decide
    unfold to_number parseFloat
    rw [hp]
    show ratOfParts (false, "1000".data, [], 0) = 1000
    simp only [ratOfParts, h1]
    norm_num [digitsToNat]
  · have hp : parseParts (cleanNumStr (Value.vstr "¥1,000円".data)) =
        some (false, "1000".data, [], 0) := by decide
    have h1 : digitsToNat "1000".data = 1000 := by decide
    unfold to_number parseFloat
    rw [hp]
    show ratOfParts (false, "1000".data, [], 0) = 1000
    simp only [ratOfParts, h1]
    norm_num [digitsToNat]
  · have hp : parseParts (cleanNumStr (Value.vstr "abc".data)) = none := by decide
    unfold to_number parseFloat
    rw [hp]
    rfl
  · have hp : parseParts (cleanNumStr (Value.vstr [])) = none := by decide
    unfold to_number parseFloat
    rw [hp]
    rfl

/-- Witness for C8's parse-failure clause at a concrete garbage input. -/
theorem c8_to_number_total_graceful_witness :
    parseParts (cleanNumStr (Value.vstr "12x".data)) = none ∧
    to_number (.vstr "12x".data) = 0 :=
  ⟨by decide, c8_to_number_total_graceful.1 (.vstr "12x".data) (by decide)⟩

/-! ## Helper lemmas: repeated keywords in the classifier column sweep (C3) -/

/-- A space-free block in `X ++ ' ' :: Y` cannot straddle the separator:
it is a prefix of `X`. -/
lemma prefix_of_no_space {p Z Y t : Str} (hsp : ' ' ∉ p) (h : p ++ t = Z ++ ' ' :: Y) :
    p <+: Z := by
  induction p generalizing Z with
  | nil => exact List.nil_prefix
  | cons c p2 ih =>
    cases Z with
    | nil =>
      exfalso
      apply hsp
      have hc : c = ' ' := by
        have := congrArg (fun l => l.head?) h
        simpa using this
      simp [hc]
    | cons z Z2 =>
      have hc : c = z := by
        have := congrArg (fun l => l.head?) h
        simpa using this
      subst hc
      have h2 : p2 ++ t = Z2 ++ ' ' :: Y := by
        have := congrArg (fun l => l.tail) h
        simpa using this
      have hsp2 : ' ' ∉ p2 := fun hm => hsp (List.mem_cons_of_mem _ hm)
      obtain ⟨u, hu⟩ := ih hsp2 h2
      exact ⟨u, by rw [List.cons_append, hu]⟩

/-- A nonempty space-free needle is a substring of `X ++ ' ' :: Y` iff it is a
substring of `X` or of `Y`. -/
lemma infix_append_space {p X Y : Str} (hp : p ≠ []) (hsp : ' ' ∉ p) :
    p <:+: X ++ ' ' :: Y ↔ p <:+: X ∨ p <:+: Y := by
  constructor
  · intro h
    induction X with
    | nil =>
      obtain ⟨s, t, hst⟩ := h
      cases s with
      | nil =>
        exfalso
        cases p with
        | nil => exact hp rfl
        | cons c p2 =>
          apply hsp
          have hc : c = ' ' := by
            have := congrArg (fun l => l.head?) hst
            simpa using this
          simp [hc]
      | cons a s2 =>
        right
        refine ⟨s2, t, ?_⟩
        have := congrArg (fun l => l.tail) hst
        simpa using this
    | cons x X2 ih =>
      obtain ⟨s, t, hst⟩ := h
      cases s with
      | nil =>
        left
        have hpre : p <+: x :: X2 := by
          apply prefix_of_no_space hsp
          simpa using hst
        exact hpre.isInfix
      | cons a s2 =>
        have h2 : p <:+: X2 ++ ' ' :: Y := by
          refine ⟨s2, t, ?_⟩
          have := congrArg (fun l => l.tail) hst
          simpa using this
        rcases ih h2 with h3 | h3
        · exact Or.inl (List.infix_cons h3)
        · exact Or.inr h3
  · rintro (h | h)
    · exact h.trans ⟨[], ' ' :: Y, by simp⟩
    · exact h.trans ⟨X ++ [' '], [], by simp⟩

/-- Every member of a list is a substring of its space-join. -/
lemma mem_infix_joinSp {c : Str} {l : List Str} (h : c ∈ l) : c <:+: joinSp l := by
  induction l with
  | nil => cases h
  | cons a t ih =>
    rcases List.mem_cons.mp h with rfl | h2
    · cases t with
      | nil => exact List.infix_rfl
      | cons b t2 => exact ⟨[], ' ' :: joinSp (b :: t2), rfl⟩
    · cases t with
      | nil => cases h2
      | cons b t2 =>
        exact (ih h2).trans ⟨a ++ [' '], [], by simp [joinSp]⟩

/-- Appending one more string to a nonempty space-join inserts one separator. -/
lemma joinSp_append_single (x : Str) : ∀ (l : List Str), l ≠ [] →
    joinSp (l ++ [x]) = joinSp l ++ ' ' :: x := by
  intro l
  induction l with
  | nil => intro h; cases h rfl
  | cons a t ih =>
    intro _
    cases t with
    | nil => rfl
    | cons b t2 =>
      show a ++ ' ' :: joinSp ((b :: t2) ++ [x]) = (a ++ ' ' :: joinSp (b :: t2)) ++ ' ' :: x
      rw [ih (by simp)]
      simp

/-- Appending a column that merely repeats text already contained in an
existing column changes no substring facts about `col_str`, for any
nonempty space-free needle. -/
lemma colStr_append_repeat_iff {cols : List Str} {kw : Str} (hk : ∃ c ∈ cols, kw <:+: c)
    {p : Str} (hp : p ≠ []) (hsp : ' ' ∉ p) :
    (p <:+: colStr (cols ++ [kw])) ↔ (p <:+: colStr cols) := by
  obtain ⟨c, hc, hkwc⟩ := hk
  have hcols : cols ≠ [] := by rintro rfl; cases hc
  have hlow : cols.map pyLower ≠ [] := by
    intro h
    exact hcols (List.map_eq_nil_iff.mp h)
  have hstruct : colStr (cols ++ [kw]) =
      (joinSp (cols.map pyLower) ++ ' ' :: pyLower kw) ++
        ' ' :: (joinSp cols ++ ' ' :: kw) := by
    unfold colStr
    rw [List.map_append]
    show joinSp (cols.map pyLower ++ [pyLower kw]) ++ ' ' :: joinSp (cols ++ [kw]) = _
    rw [joinSp_append_single _ _ hlow, joinSp_append_single _ _ hcols]
  have hbase : colStr cols = joinSp (cols.map pyLower) ++ ' ' :: joinSp cols := rfl
  rw [hstruct, hbase]
  rw [infix_append_space hp hsp, infix_append_space hp hsp, infix_append_space hp hsp,
    infix_append_space hp hsp]
  constructor
  · rintro ((h | h) | (h | h))
    · exact Or.inl h
    · -- p sits inside the lowered copy of kw, which already occurs in the lowered join
      refine Or.inl (h.trans ?_)
      have h1 : pyLower kw <:+: pyLower c := List.IsInfix.map Char.toLower hkwc
      exact h1.trans (mem_infix_joinSp (List.mem_map_of_mem pyLower hc))
    · exact Or.inr h
    · -- p sits inside the repeated copy of kw, which already occurs in the join
      exact Or.inr (h.trans (hkwc.trans (mem_infix_joinSp hc)))
  · rintro (h | h)
    · exact Or.inl (Or.inl h)
    · exact Or.inr (Or.inl h)

/-- The keyword sweep of one weighted list is unchanged by appending a column
that repeats already-present text (all real keyword lists are nonempty,
space-free strings). -/
lemma kwScore_append_repeat (kws : List Str) (w : ℕ) (cols : List Str) (kw : Str)
    (hall : ∀ p ∈ kws, p ≠ [] ∧ ' ' ∉ p)
    (hk : ∃ c ∈ cols, kw <:+: c) :
    kwScore kws w (colStr (cols ++ [kw])) = kwScore kws w (colStr cols) := by
  unfold kwScore
  congr 1
  apply List.map_congr_left
  intro p hpmem
  exact if_congr (colStr_append_repeat_iff hk (hall p hpmem).1 (hall p hpmem).2) rfl rfl

/-- Appending a column repeating already-present text leaves every category's
column-name score unchanged. -/
lemma colScore_append_repeat (cat : Category) (cols : List Str) (kw : Str)
    (hk : ∃ c ∈ cols, kw <:+: c) :
    colScore cat (colStr (cols ++ [kw])) = colScore cat (colStr cols) := by
  cases cat
  case hr =>
    simp only [colScore]
    rw [kwScore_append_repeat _ _ _ _ (by decide) hk,
      kwScore_append_repeat _ _ _ _ (by decide) hk]
  case marketing =>
    simp only [colScore]
    rw [kwScore_append_repeat _ _ _ _ (by decide) hk,
      kwScore_append_repeat _ _ _ _ (by decide) hk]
  case sales =>
    simp only [colScore]
    rw [kwScore_append_repeat _ _ _ _ (by decide) hk,
      kwScore_append_repeat _ _ _ _ (by decide) hk]
  case financial =>
    simp only [colScore]
    rw [kwScore_append_repeat _ _ _ _ (by decide) hk]
  case inventory =>
    simp only [colScore]
    rw [kwScore_append_repeat _ _ _ _ (by decide) hk,
      kwScore_append_repeat _ _ _ _ (by decide) hk]
  case customer =>
    simp only [colScore]
    rw [kwScore_append_repeat _ _ _ _ (by decide) hk,
      kwScore_append_repeat _ _ _ _ (by decide) hk]

/-- The keyword vocabulary (strong and medium tiers) of one category. -/
def catKwList : Category → List Str
  | .hr => hrStrong ++ hrMedium
  | .marketing => mkStrong ++ mkMedium
  | .sales => salesStrong ++ salesMedium
  | .financial => finStrong
  | .inventory => invStrong ++ invMedium
  | .customer => custStrong ++ custMedium

/-- C3 counterexample: the claim is the existential "some column list scores
strictly higher for a category after a second column repeats one of that
category's keywords".  The column sweep tests each keyword once against the
joined `col_str` (a boolean substring check), so repetition can never raise
any score: the existential is false. -/
theorem c3_counterexample :
    ¬ ∃ (cat : Category) (cols : List Str) (kw : Str),
        kw ∈ catKwList cat ∧ (∃ c ∈ cols, kw <:+: c) ∧
        colScore cat (colStr (cols ++ [kw])) > colScore cat (colStr cols) := by
  rintro ⟨cat, cols, kw, _, hk, hgt⟩
  rw [colScore_append_repeat cat cols kw hk] at hgt
  exact lt_irrefl _ hgt

/-- C3 (amended): a keyword recurring in several column names is counted once,
not multiple times: appending a second column that repeats text already
contained in an existing column leaves every category's column-name score
exactly unchanged. -/
theorem c3_no_double_count (cols : List Str) (kw : Str)
    (hk : ∃ c ∈ cols, kw <:+: c) :
    ∀ cat, colScore cat (colStr (cols ++ [kw])) = colScore cat (colStr cols) :=
  fun cat => colScore_append_repeat cat cols kw hk

/-- Witness for the amended C3: duplicating the column `"売上"` leaves the
sales score unchanged. -/
theorem c3_no_double_count_witness :
    (∃ c ∈ ["売上".data], "売上".data <:+: c) ∧
    colScore .sales (colStr (["売上".data] ++ ["売上".data])) =
      colScore .sales (colStr ["売上".data]) :=
  ⟨by decide, c3_no_double_count ["売上".data] "売上".data (by decide) .sales⟩

/-! ## Helper lemmas: the aggregation loop of `_compute_stats` -/

lemma stepRow_total (cm : ColMap) (a : SAcc) (r : Row) :
    (stepRow cm a r).total = a.total + amountOf cm r := rfl

lemma stepRow_byp_some (cm : ColMap) (pc : Str) (a : SAcc) (r : Row)
    (h : cm.product = some pc) :
    (stepRow cm a r).byp = upsert a.byp (entKeyOf pc r) (amountOf cm r) := by
  simp [stepRow, h]

lemma stepRow_ts_some (cm : ColMap) (dc : Str) (a : SAcc) (r : Row)
    (h : cm.date = some dc) :
    (stepRow cm a r).ts =
      if dayOf dc r = [] then a.ts else upsert a.ts (dayOf dc r) (amountOf cm r) := by
  simp [stepRow, h]

lemma foldl_total (cm : ColMap) : ∀ (rows : List Row) (a : SAcc),
    (rows.foldl (stepRow cm) a).total = a.total + (rows.map (amountOf cm)).sum := by
  intro rows
  induction rows with
  | nil => intro a; simp
  | cons r t ih =>
    intro a
    rw [List.foldl_cons, ih, stepRow_total]
    simp [List.map_cons, List.sum_cons]
    ring

/-- Per-key accumulated amount in a tally list. -/
def lkSum (l : List (Str × ℚ)) (k : Str) : ℚ :=
  ((l.filter (fun kv => kv.1 == k)).map Prod.snd).sum

/-- Amount contributed to entity key `k` by the rows of `P`. -/
def entContrib (cm : ColMap) (pc : Str) (P : List Row) (k : Str) : ℚ :=
  ((P.filter (fun r => entKeyOf pc r == k)).map (amountOf cm)).sum

/-- Amount contributed by the rows of `P` whose day bucket is nonempty. -/
def dayContrib (cm : ColMap) (dc : Str) (P : List Row) : ℚ :=
  ((P.filter (fun r => decide (dayOf dc r ≠ []))).map (amountOf cm)).sum

lemma upsert_keys (k : Str) (v : ℚ) : ∀ l : List (Str × ℚ),
    (upsert l k v).map Prod.fst =
      if k ∈ l.map Prod.fst then l.map Prod.fst else l.map Prod.fst ++ [k] := by
  intro l
  induction l with
  | nil => simp [upsert]
  | cons kv t ih =>
    by_cases h : kv.1 = k
    · rw [upsert, if_pos h]
      simp [h.symm]
    · rw [upsert, if_neg h]
      simp only [List.map_cons, ih]
      by_cases h2 : k ∈ t.map Prod.fst
      · rw [if_pos h2, if_pos (List.mem_cons_of_mem _ h2)]
      · have hnot : k ∉ kv.1 :: t.map Prod.fst := by
          intro hc
          rcases List.mem_cons.mp hc with he | he
          · exact h he.symm
          · exact h2 he
        rw [if_neg h2, if_neg hnot, List.cons_append]

lemma lkSum_cons (k0 : Str) (v0 : ℚ) (t : List (Str × ℚ)) (k2 : Str) :
    lkSum ((k0, v0) :: t) k2 = (if k0 = k2 then v0 else 0) + lkSum t k2 := by
  by_cases h : k0 = k2
  · have hb : (k0 == k2) = true := beq_iff_eq.mpr h
    simp [lkSum, List.filter_cons, hb, h]
  · have hb : (k0 == k2) = false := by
      rw [beq_eq_false_iff_ne]
      exact h
    simp [lkSum, List.filter_cons, hb, h]

lemma upsert_lkSum (k k2 : Str) (v : ℚ) : ∀ l,
    lkSum (upsert l k v) k2 = lkSum l k2 + (if k2 = k then v else 0) := by
  intro l
  induction l with
  | nil =>
    show lkSum [(k, v)] k2 = lkSum [] k2 + (if k2 = k then v else 0)
    rw [lkSum_cons]
    by_cases h : k2 = k
    · rw [if_pos h, if_pos h.symm]
      simp [lkSum]
    · rw [if_neg h, if_neg (fun he => h he.symm)]
      simp [lkSum]
  | cons kv t ih =>
    obtain ⟨k0, v0⟩ := kv
    by_cases h : k0 = k
    · rw [show upsert ((k0, v0) :: t) k v = (k0, v0 + v) :: t from by rw [upsert, if_pos h]]
      rw [lkSum_cons, lkSum_cons]
      by_cases h2 : k0 = k2
      · rw [if_pos h2, if_pos h2, if_pos (h2 ▸ h)]
        ring
      · rw [if_neg h2, if_neg h2, if_neg (fun he : k2 = k => h2 (h.trans he.symm))]
        ring
    · rw [show upsert ((k0, v0) :: t) k v = (k0, v0) :: upsert t k v from by
        rw [upsert, if_neg h]]
      rw [lkSum_cons, lkSum_cons, ih]
      ring

lemma upsert_sumSnd (k : Str) (v : ℚ) : ∀ l,
    ((upsert l k v).map Prod.snd).sum = (l.map Prod.snd).sum + v := by
  intro l
  induction l with
  | nil => simp [upsert]
  | cons kv t ih =>
    by_cases h : kv.1 = k
    · rw [upsert, if_pos h]
      simp [List.map_cons, List.sum_cons]
      ring
    · rw [upsert, if_neg h]
      simp [List.map_cons, List.sum_cons, ih]
      ring

/-- First-occurrence scan with an explicit seen set
(specifies the key order of `Counter`/`defaultdict` tallies). -/
def fsAux (seen : List Str) : List Str → List Str
  | [] => []
  | k :: t => if k ∈ seen then fsAux seen t else k :: fsAux (k :: seen) t

/-- Keys of a list in first-seen order. -/
def firstSeen (l : List Str) : List Str := fsAux [] l

lemma mem_fsAux (k : Str) : ∀ (l seen : List Str),
    k ∈ fsAux seen l ↔ k ∈ l ∧ k ∉ seen := by
  intro l
  induction l with
  | nil => intro seen; simp [fsAux]
  | cons a t ih =>
    intro seen
    by_cases h : a ∈ seen
    · rw [fsAux, if_pos h, ih]
      constructor
      · rintro ⟨hk, hs⟩
        exact ⟨List.mem_cons_of_mem _ hk, hs⟩
      · rintro ⟨hk, hs⟩
        rcases List.mem_cons.mp hk with rfl | hk2
        · exact absurd h hs
        · exact ⟨hk2, hs⟩
    · rw [fsAux, if_neg h, List.mem_cons, ih]
      constructor
      · rintro (rfl | ⟨hk, hs⟩)
        · exact ⟨List.mem_cons_self _ _, h⟩
        · refine ⟨List.mem_cons_of_mem _ hk, fun hc => hs (List.mem_cons_of_mem _ hc)⟩
      · rintro ⟨hk, hs⟩
        rcases List.mem_cons.mp hk with rfl | hk2
        · exact Or.inl rfl
        · by_cases hka : k = a
          · exact Or.inl hka
          · right
            refine ⟨hk2, fun hc => ?_⟩
            rcases List.mem_cons.mp hc with he | hc2
            · exact hka he
            · exact hs hc2

lemma nodup_fsAux : ∀ (l seen : List Str), (fsAux seen l).Nodup := by
  intro l
  induction l with
  | nil => intro seen; simp [fsAux]
  | cons a t ih =>
    intro seen
    by_cases h : a ∈ seen
    · rw [fsAux, if_pos h]
      exact ih seen
    · rw [fsAux, if_neg h]
      refine List.nodup_cons.mpr ⟨?_, ih _⟩
      intro hmem
      exact ((mem_fsAux a t (a :: seen)).mp hmem).2 (List.mem_cons_self a seen)

lemma fsAux_congr : ∀ (l s1 s2 : List Str), (∀ x, x ∈ s1 ↔ x ∈ s2) →
    fsAux s1 l = fsAux s2 l := by
  intro l
  induction l with
  | nil => intro s1 s2 _; rfl
  | cons a t ih =>
    intro s1 s2 h
    by_cases ha : a ∈ s1
    · rw [fsAux, if_pos ha, fsAux, if_pos ((h a).mp ha)]
      exact ih s1 s2 h
    · rw [fsAux, if_neg ha, fsAux, if_neg (fun hc => ha ((h a).mpr hc))]
      congr 1
      apply ih
      intro x
      simp only [List.mem_cons]
      rw [h x]

lemma fsAux_append_single (k : Str) : ∀ (l seen : List Str),
    fsAux seen (l ++ [k]) =
      fsAux seen l ++ (if k ∈ seen ∨ k ∈ l then [] else [k]) := by
  intro l
  induction l with
  | nil =>
    intro seen
    by_cases h : k ∈ seen
    · simp [fsAux, h]
    · simp [fsAux, h]
  | cons a t ih =>
    intro seen
    by_cases ha : a ∈ seen
    · rw [List.cons_append, fsAux, if_pos ha, fsAux, if_pos ha, ih]
      congr 1
      have hcond : (k ∈ seen ∨ k ∈ t) ↔ (k ∈ seen ∨ k ∈ a :: t) := by
        by_cases hk : k = a
        · subst hk
          simp [ha]
        · simp [List.mem_cons, hk]
      exact if_congr hcond rfl rfl
    · rw [List.cons_append, fsAux, if_neg ha, fsAux, if_neg ha, ih]
      have hcond : (k ∈ a :: seen ∨ k ∈ t) ↔ (k ∈ seen ∨ k ∈ a :: t) := by
        simp only [List.mem_cons]
        constructor
        · rintro ((h1 | h1) | h1)
          · exact Or.inr (Or.inl h1)
          · exact Or.inl h1
          · exact Or.inr (Or.inr h1)
        · rintro (h1 | (h1 | h1))
          · exact Or.inl (Or.inr h1)
          · exact Or.inl (Or.inl h1)
          · exact Or.inr h1
      rw [if_congr hcond rfl rfl]
      simp [List.cons_append]

lemma mem_firstSeen (k : Str) (l : List Str) : k ∈ firstSeen l ↔ k ∈ l := by
  unfold firstSeen
  rw [mem_fsAux]
  simp

lemma nodup_firstSeen (l : List Str) : (firstSeen l).Nodup := nodup_fsAux l []

lemma firstSeen_append_single (l : List Str) (k : Str) :
    firstSeen (l ++ [k]) = if k ∈ l then firstSeen l else firstSeen l ++ [k] := by
  unfold firstSeen
  rw [fsAux_append_single]
  by_cases h : k ∈ l
  · simp [h]
  · simp [h]

lemma entContrib_append_single (cm : ColMap) (pc : Str) (P : List Row) (r : Row) (k : Str) :
    entContrib cm pc (P ++ [r]) k =
      entContrib cm pc P k + (if entKeyOf pc r = k then amountOf cm r else 0) := by
  unfold entContrib
  rw [List.filter_append, List.map_append, List.sum_append]
  congr 1
  by_cases h : entKeyOf pc r = k
  · have hb : (entKeyOf pc r == k) = true := beq_iff_eq.mpr h
    simp [List.filter_cons, hb, h]
  · have hb : (entKeyOf pc r == k) = false := by
      rw [beq_eq_false_iff_ne]
      exact h
    simp [List.filter_cons, hb, h]

lemma dayContrib_append_single (cm : ColMap) (dc : Str) (P : List Row) (r : Row) :
    dayContrib cm dc (P ++ [r]) =
      dayContrib cm dc P + (if dayOf dc r = [] then 0 else amountOf cm r) := by
  unfold dayContrib
  rw [List.filter_append, List.map_append, List.sum_append]
  congr 1
  by_cases h : dayOf dc r = []
  · simp [List.filter_cons, h]
  · simp [List.filter_cons, h]

lemma compute_stats_pos (rows : List Row) (h : rows.length ≠ 0) :
    compute_stats rows =
      { total_rows := rows.length
        total_sales := (rows.foldl (stepRow (detect_columns rows)) ⟨0, [], []⟩).total
        avg_row_sales := if rows.length = 0 then 0 else
          (rows.foldl (stepRow (detect_columns rows)) ⟨0, [], []⟩).total / (rows.length : ℚ)
        top_products := mostCommonTop
          (rows.foldl (stepRow (detect_columns rows)) ⟨0, [], []⟩).byp
        timeseries := sortTrend
          (rows.foldl (stepRow (detect_columns rows)) ⟨0, [], []⟩).ts } := by
  unfold compute_stats
  rw [if_neg h]

/-- C4: for every dataset, `total_sales` equals the sum over all rows of the
Numeric Normalizer applied to the row's amount-role cell (0.0 per row with no
amount role), `avg_row_sales` is that total divided by the row count (0.0 for
zero rows), and the empty dataset yields the all-zero Stats with empty
rankings and time series. -/
theorem c4_aggregator_totals :
    (∀ rows : List Row,
      (compute_stats rows).total_rows = rows.length ∧
      (compute_stats rows).total_sales = (rows.map (amountOf (detect_columns rows))).sum ∧
      (compute_stats rows).avg_row_sales =
        (if rows.length = 0 then 0
         else (compute_stats rows).total_sales / (rows.length : ℚ))) ∧
    compute_stats [] = ⟨0, 0, 0, [], []⟩ := by
  constructor
  · intro rows
    by_cases h : rows.length = 0
    · have hnil : rows = [] := List.length_eq_zero.mp h
      subst hnil
      exact ⟨rfl, by simp [compute_stats], by simp [compute_stats]⟩
    · rw [compute_stats_pos rows h]
      refine ⟨rfl, ?_, rfl⟩
      show (rows.foldl (stepRow (detect_columns rows)) ⟨0, [], []⟩).total = _
      rw [foldl_total]
      simp
  · rfl

lemma ts_fold (cm : ColMap) (dc : Str) (hcm : cm.date = some dc) :
    ∀ (rows P : List Row) (a : SAcc),
      (a.ts.map Prod.fst).Nodup →
      (a.ts.map Prod.snd).sum = dayContrib cm dc P →
      ((rows.foldl (stepRow cm) a).ts.map Prod.fst).Nodup ∧
      ((rows.foldl (stepRow cm) a).ts.map Prod.snd).sum = dayContrib cm dc (P ++ rows) := by
  intro rows
  induction rows with
  | nil =>
    intro P a h1 h2
    constructor
    · simpa using h1
    · simpa using h2
  | cons r t ih =>
    intro P a h1 h2
    rw [List.foldl_cons]
    have hstep := stepRow_ts_some cm dc a r hcm
    have h1a : ((stepRow cm a r).ts.map Prod.fst).Nodup := by
      rw [hstep]
      by_cases hd : dayOf dc r = []
      · rw [if_pos hd]
        exact h1
      · rw [if_neg hd, upsert_keys]
        by_cases hmem : dayOf dc r ∈ a.ts.map Prod.fst
        · rw [if_pos hmem]
          exact h1
        · rw [if_neg hmem]
          exact List.nodup_append.mpr
            ⟨h1, List.nodup_singleton _, List.disjoint_singleton.mpr hmem⟩
    have h2a : ((stepRow cm a r).ts.map Prod.snd).sum = dayContrib cm dc (P ++ [r]) := by
      rw [hstep, dayContrib_append_single, ← h2]
      by_cases hd : dayOf dc r = []
      · rw [if_pos hd, if_pos hd, add_zero]
      · rw [if_neg hd, if_neg hd, upsert_sumSnd]
    have := ih (P ++ [r]) (stepRow cm a r) h1a h2a
    rwa [List.append_assoc, List.singleton_append] at this

lemma sortTrend_pairwise (l : List (Str × ℚ)) (hnd : (l.map Prod.fst).Nodup) :
    List.Pairwise (fun a b : Str × ℚ => a.1 < b.1) (sortTrend l) := by
  have hsorted : List.Sorted tsRel (sortTrend l) := List.sorted_insertionSort tsRel l
  have hperm : (sortTrend l).Perm l := List.perm_insertionSort tsRel l
  have hnd2 : ((sortTrend l).map Prod.fst).Nodup :=
    (List.Perm.nodup_iff (List.Perm.map Prod.fst hperm)).mpr hnd
  have hne : List.Pairwise (fun a b : Str × ℚ => a.1 ≠ b.1) (sortTrend l) :=
    List.pairwise_map.mp hnd2
  exact (List.Pairwise.and hsorted hne).imp (fun h => lt_of_le_of_ne h.1 h.2)

/-- C6: for every dataset with a detected date role, the time series is sorted
strictly ascending in the lexicographic order on day-bucket strings, the sum
of its amounts equals the total contributed by exactly the rows whose
resolved day bucket is nonempty, and rows with an empty resolved day are
still counted in `total_rows` and `total_sales`. -/
theorem c6_timeseries_sorted_sum (rows : List Row) (dc : Str)
    (hd : (detect_columns rows).date = some dc) :
    List.Pairwise (fun a b : Str × ℚ => List.Lex (fun x y : Char => x < y) a.1 b.1)
      (compute_stats rows).timeseries ∧
    ((compute_stats rows).timeseries.map Prod.snd).sum =
      ((rows.filter (fun r => decide (dayOf dc r ≠ []))).map
        (amountOf (detect_columns rows))).sum ∧
    (compute_stats rows).total_rows = rows.length ∧
    (compute_stats rows).total_sales = (rows.map (amountOf (detect_columns rows))).sum := by
  have hne : rows.length ≠ 0 := by
    intro h0
    rw [List.length_eq_zero.mp h0] at hd
    simp [detect_columns, firstRowKeys] at hd
  rw [compute_stats_pos rows hne]
  have hfold := ts_fold (detect_columns rows) dc hd rows [] ⟨0, [], []⟩
    (by simp) (by simp [dayContrib])
  rw [List.nil_append] at hfold
  refine ⟨?_, ?_, rfl, ?_⟩
  · exact sortTrend_pairwise _ hfold.1
  · show ((sortTrend (rows.foldl (stepRow (detect_columns rows)) ⟨0, [], []⟩).ts).map
      Prod.snd).sum = _
    have hperm := List.perm_insertionSort tsRel
      (rows.foldl (stepRow (detect_columns rows)) ⟨0, [], []⟩).ts
    have hsum : ((sortTrend (rows.foldl (stepRow (detect_columns rows)) ⟨0, [], []⟩).ts).map
        Prod.snd).sum =
        (((rows.foldl (stepRow (detect_columns rows)) ⟨0, [], []⟩).ts).map Prod.snd).sum :=
      List.Perm.sum_eq (List.Perm.map Prod.snd hperm)
    rw [hsum]
    exact hfold.2
  · show (rows.foldl (stepRow (detect_columns rows)) ⟨0, [], []⟩).total = _
    rw [foldl_total]
    simp

/-- Witness for C6 at the end-to-end scenario rows of the spec. -/
theorem c6_timeseries_sorted_sum_witness :
    ((detect_columns
      [[("日付".data, Value.vstr "2024-01-01".data), ("商品名".data, Value.vstr "A".data),
        ("売上金額".data, Value.vstr "50,000".data)],
       [("日付".data, Value.vstr "2024-01-01".data), ("商品名".data, Value.vstr "B".data),
        ("売上金額".data, Value.vstr "30,000".data)]]).date = some "日付".data) ∧
    (List.Pairwise (fun a b : Str × ℚ => List.Lex (fun x y : Char => x < y) a.1 b.1)
      (compute_stats
        [[("日付".data, Value.vstr "2024-01-01".data), ("商品名".data, Value.vstr "A".data),
          ("売上金額".data, Value.vstr "50,000".data)],
         [("日付".data, Value.vstr "2024-01-01".data), ("商品名".data, Value.vstr "B".data),
          ("売上金額".data, Value.vstr "30,000".data)]]).timeseries ∧
     ((compute_stats
        [[("日付".data, Value.vstr "2024-01-01".data), ("商品名".data, Value.vstr "A".data),
          ("売上金額".data, Value.vstr "50,000".data)],
         [("日付".data, Value.vstr "2024-01-01".data), ("商品名".data, Value.vstr "B".data),
          ("売上金額".data, Value.vstr "30,000".data)]]).timeseries.map Prod.snd).sum =
      (([[("日付".data, Value.vstr "2024-01-01".data), ("商品名".data, Value.vstr "A".data),
          ("売上金額".data, Value.vstr "50,000".data)],
         [("日付".data, Value.vstr "2024-01-01".data), ("商品名".data, Value.vstr "B".data),
          ("売上金額".data, Value.vstr "30,000".data)]].filter
          (fun r => decide (dayOf "日付".data r ≠ []))).map
        (amountOf (detect_columns
          [[("日付".data, Value.vstr "2024-01-01".data), ("商品名".data, Value.vstr "A".data),
            ("売上金額".data, Value.vstr "50,000".data)],
           [("日付".data, Value.vstr "2024-01-01".data), ("商品名".data, Value.vstr "B".data),
            ("売上金額".data, Value.vstr "30,000".data)]]))).sum ∧
     (compute_stats
        [[("日付".data, Value.vstr "2024-01-01".data), ("商品名".data, Value.vstr "A".data),
          ("売上金額".data, Value.vstr "50,000".data)],
         [("日付".data, Value.vstr "2024-01-01".data), ("商品名".data, Value.vstr "B".data),
          ("売上金額".data, Value.vstr "30,000".data)]]).total_rows =
      (2 : ℕ) ∧
     (compute_stats
        [[("日付".data, Value.vstr "2024-01-01".data), ("商品名".data, Value.vstr "A".data),
          ("売上金額".data, Value.vstr "50,000".data)],
         [("日付".data, Value.vstr "2024-01-01".data), ("商品名".data, Value.vstr "B".data),
          ("売上金額".data, Value.vstr "30,000".data)]]).total_sales =
      ([[("日付".data, Value.vstr "2024-01-01".data), ("商品名".data, Value.vstr "A".data),
          ("売上金額".data, Value.vstr "50,000".data)],
         [("日付".data, Value.vstr "2024-01-01".data), ("商品名".data, Value.vstr "B".data),
          ("売上金額".data, Value.vstr "30,000".data)]].map
        (amountOf (detect_columns
          [[("日付".data, Value.vstr "2024-01-01".data), ("商品名".data, Value.vstr "A".data),
            ("売上金額".data, Value.vstr "50,000".data)],
           [("日付".data, Value.vstr "2024-01-01".data), ("商品名".data, Value.vstr "B".data),
            ("売上金額".data, Value.vstr "30,000".data)]]))).sum) :=
  ⟨by decide, c6_timeseries_sorted_sum _ "日付".data (by decide)⟩

lemma byp_fold (cm : ColMap) (pc : Str) (hcm : cm.product = some pc) :
    ∀ (rows P : List Row) (a : SAcc),
      a.byp.map Prod.fst = firstSeen (P.map (entKeyOf pc)) →
      (∀ k, lkSum a.byp k = entContrib cm pc P k) →
      ((rows.foldl (stepRow cm) a).byp.map Prod.fst =
          firstSeen ((P ++ rows).map (entKeyOf pc))) ∧
      (∀ k, lkSum (rows.foldl (stepRow cm) a).byp k = entContrib cm pc (P ++ rows) k) := by
  intro rows
  induction rows with
  | nil =>
    intro P a h1 h2
    constructor
    · simpa using h1
    · simpa using h2
  | cons r t ih =>
    intro P a h1 h2
    rw [List.foldl_cons]
    have hstep := stepRow_byp_some cm pc a r hcm
    have h1a : (stepRow cm a r).byp.map Prod.fst =
        firstSeen ((P ++ [r]).map (entKeyOf pc)) := by
      rw [hstep, upsert_keys, h1, List.map_append]
      show _ = firstSeen (P.map (entKeyOf pc) ++ [entKeyOf pc r])
      rw [firstSeen_append_single]
      by_cases hmem : entKeyOf pc r ∈ P.map (entKeyOf pc)
      · rw [if_pos ((mem_firstSeen _ _).mpr hmem), if_pos hmem]
      · rw [if_neg (fun hc => hmem ((mem_firstSeen _ _).mp hc)), if_neg hmem]
    have h2a : ∀ k, lkSum (stepRow cm a r).byp k = entContrib cm pc (P ++ [r]) k := by
      intro k
      rw [hstep, upsert_lkSum, h2, entContrib_append_single]
      congr 1
      by_cases he : entKeyOf pc r = k
      · rw [if_pos he, if_pos he.symm]
      · rw [if_neg (fun hc => he hc.symm), if_neg he]
    have := ih (P ++ [r]) (stepRow cm a r) h1a h2a
    rwa [List.append_assoc, List.singleton_append] at this

lemma lkSum_zero_of_not_mem (t : List (Str × ℚ)) (k : Str) (h : k ∉ t.map Prod.fst) :
    lkSum t k = 0 := by
  unfold lkSum
  have hf : t.filter (fun kv => kv.1 == k) = [] := by
    rw [List.filter_eq_nil_iff]
    intro kv hkv hc
    exact h ((beq_iff_eq.mp hc) ▸ List.mem_map_of_mem Prod.fst hkv)
  rw [hf]
  rfl

lemma lkSum_of_mem : ∀ (l : List (Str × ℚ)), (l.map Prod.fst).Nodup →
    ∀ k v, (k, v) ∈ l → lkSum l k = v := by
  intro l
  induction l with
  | nil =>
    intro _ k v h
    cases h
  | cons kv t ih =>
    intro hnd k v h
    obtain ⟨k0, v0⟩ := kv
    rw [List.map_cons] at hnd
    have hk0 : k0 ∉ t.map Prod.fst := (List.nodup_cons.mp hnd).1
    have hnd2 : (t.map Prod.fst).Nodup := (List.nodup_cons.mp hnd).2
    rcases List.mem_cons.mp h with he | ht
    · have he1 : k = k0 := congrArg Prod.fst he
      have he2 : v = v0 := congrArg Prod.snd he
      subst he1
      subst he2
      rw [lkSum_cons, if_pos rfl, lkSum_zero_of_not_mem t k hk0, add_zero]
    · have hkne : k0 ≠ k := by
        intro he
        exact hk0 (he ▸ List.mem_map_of_mem Prod.fst ht)
      rw [lkSum_cons, if_neg hkne, ih hnd2 k v ht, zero_add]

lemma mostCommonTop_length (l : List (Str × ℚ)) : (mostCommonTop l).length ≤ 5 := by
  unfold mostCommonTop
  rw [List.length_map]
  exact List.length_take_le 5 _

lemma mostCommonTop_mem (l : List (Str × ℚ)) {kv : Str × ℚ}
    (h : kv ∈ mostCommonTop l) : kv ∈ l := by
  unfold mostCommonTop at h
  obtain ⟨x, hx, hxe⟩ := List.mem_map.mp h
  have hx2 : x ∈ l.enum.insertionSort mcRel := (List.take_sublist 5 _).subset hx
  have hx3 : x ∈ l.enum := (List.perm_insertionSort mcRel l.enum).subset hx2
  have := List.mem_enum_iff_getElem?.mp hx3
  exact hxe ▸ List.getElem?_mem this

lemma mostCommonTop_pairwise (l : List (Str × ℚ)) (hnd : (l.map Prod.fst).Nodup) :
    List.Pairwise (fun a b : Str × ℚ => b.2 < a.2 ∨ (a.2 = b.2 ∧
      ∃ i j : ℕ, i < j ∧ (l.map Prod.fst)[i]? = some a.1 ∧ (l.map Prod.fst)[j]? = some b.1))
      (mostCommonTop l) := by
  have hsorted : List.Sorted mcRel (l.enum.insertionSort mcRel) :=
    List.sorted_insertionSort mcRel l.enum
  have hperm : (l.enum.insertionSort mcRel).Perm l.enum :=
    List.perm_insertionSort mcRel l.enum
  have henum_nd : l.enum.Nodup := List.Nodup.of_map Prod.fst (List.nodup_enum_map_fst l)
  have hS_nd : (l.enum.insertionSort mcRel).Nodup := (List.Perm.nodup_iff hperm).mpr henum_nd
  have hP : List.Pairwise (fun a b : ℕ × (Str × ℚ) => mcRel a b ∧ a ≠ b)
      (l.enum.insertionSort mcRel) := List.Pairwise.and hsorted hS_nd
  have hP2 : List.Pairwise (fun a b : ℕ × (Str × ℚ) =>
      b.2.2 < a.2.2 ∨ (a.2.2 = b.2.2 ∧ ∃ i j : ℕ, i < j ∧
        (l.map Prod.fst)[i]? = some a.2.1 ∧ (l.map Prod.fst)[j]? = some b.2.1))
      (l.enum.insertionSort mcRel) := by
    refine List.Pairwise.imp_of_mem ?_ hP
    intro a b ha hb hab
    have ha2 : l[a.1]? = some a.2 := List.mem_enum_iff_getElem?.mp (hperm.subset ha)
    have hb2 : l[b.1]? = some b.2 := List.mem_enum_iff_getElem?.mp (hperm.subset hb)
    rcases hab.1 with hlt | ⟨heq, hle⟩
    · exact Or.inl hlt
    · right
      refine ⟨heq, a.1, b.1, ?_, ?_, ?_⟩
      · rcases lt_or_eq_of_le hle with hij | hij
        · exact hij
        · exfalso
          apply hab.2
          have hsome : some a.2 = some b.2 := by rw [← ha2, ← hb2, hij]
          exact Prod.ext hij (Option.some.inj hsome)
      · rw [List.getElem?_map, ha2]
        rfl
      · rw [List.getElem?_map, hb2]
        rfl
  have htake := List.Pairwise.sublist (List.take_sublist 5 _) hP2
  unfold mostCommonTop
  rw [List.pairwise_map]
  exact htake

/-- C5: for every dataset with a detected entity role, `top_products` has at
most five entries, is ordered descending by accumulated amount with ties in
first-seen order of the entity value, and each listed entity's amount is the
sum of the normalized amounts of exactly the rows whose stripped entity cell
equals that entity. -/
theorem c5_top_entities (rows : List Row) (pc : Str)
    (hp : (detect_columns rows).product = some pc) :
    (compute_stats rows).top_products.length ≤ 5 ∧
    List.Pairwise (fun a b : Str × ℚ => b.2 < a.2 ∨ (a.2 = b.2 ∧
      ∃ i j : ℕ, i < j ∧
        (firstSeen (rows.map (entKeyOf pc)))[i]? = some a.1 ∧
        (firstSeen (rows.map (entKeyOf pc)))[j]? = some b.1))
      (compute_stats rows).top_products ∧
    ∀ kv ∈ (compute_stats rows).top_products,
      kv.2 = ((rows.filter (fun r => entKeyOf pc r == kv.1)).map
        (amountOf (detect_columns rows))).sum := by
  have hne : rows.length ≠ 0 := by
    intro h0
    rw [List.length_eq_zero.mp h0] at hp
    simp [detect_columns, firstRowKeys] at hp
  rw [compute_stats_pos rows hne]
  have hfold := byp_fold (detect_columns rows) pc hp rows [] ⟨0, [], []⟩
    rfl (fun k => rfl)
  rw [List.nil_append] at hfold
  obtain ⟨hkeys, hsums⟩ := hfold
  have hnd : ((rows.foldl (stepRow (detect_columns rows)) ⟨0, [], []⟩).byp.map
      Prod.fst).Nodup := by
    rw [hkeys]
    exact nodup_firstSeen _
  refine ⟨mostCommonTop_length _, ?_, ?_⟩
  · have := mostCommonTop_pairwise _ hnd
    rw [hkeys] at this
    exact this
  · intro kv hkv
    have hmem : kv ∈ (rows.foldl (stepRow (detect_columns rows)) ⟨0, [], []⟩).byp :=
      mostCommonTop_mem _ hkv
    obtain ⟨k, v⟩ := kv
    have hv : lkSum (rows.foldl (stepRow (detect_columns rows)) ⟨0, [], []⟩).byp k = v :=
      lkSum_of_mem _ hnd k v hmem
    show v = _
    rw [← hv, hsums k]
    rfl

/-- Witness for C5 at the end-to-end scenario rows of the spec. -/
theorem c5_top_entities_witness :
    ((detect_columns
      [[("日付".data, Value.vstr "2024-01-01".data), ("商品名".data, Value.vstr "A".data),
        ("売上金額".data, Value.vstr "50,000".data)],
       [("日付".data, Value.vstr "2024-01-01".data), ("商品名".data, Value.vstr "B".data),
        ("売上金額".data, Value.vstr "30,000".data)]]).product = some "商品名".data) ∧
    ((compute_stats
      [[("日付".data, Value.vstr "2024-01-01".data), ("商品名".data, Value.vstr "A".data),
        ("売上金額".data, Value.vstr "50,000".data)],
       [("日付".data, Value.vstr "2024-01-01".data), ("商品名".data, Value.vstr "B".data),
        ("売上金額".data, Value.vstr "30,000".data)]]).top_products.length ≤ 5) :=
  ⟨by decide,
    (c5_top_entities
      [[("日付".data, Value.vstr "2024-01-01".data), ("商品名".data, Value.vstr "A".data),
        ("売上金額".data, Value.vstr "50,000".data)],
       [("日付".data, Value.vstr "2024-01-01".data), ("商品名".data, Value.vstr "B".data),
        ("売上金額".data, Value.vstr "30,000".data)]] "商品名".data (by decide)).1⟩


end SAP
